import Mathlib

/-
Verification of the GUI_Calculator repository (MVVM desktop calculator).

Shallow embedding conventions:
- Python strings are modelled as `List Char`.
- Python numbers (`float`/`int`) are modelled as `ℚ` (exact arithmetic);
  the repository only ever manipulates small decimal values.
- Python exceptions are modelled with `Except` / explicit outcome types.
- Tkinter observers (`notify_observers`) are UI glue and are not modelled.
-/

namespace GUICalculator

/- ===================== CalculatorModel (calculator_model.py) ===================== -/

/-- Models `expression.replace(' ', '')`. -/
def removeSpaces (e : List Char) : List Char := e.filter (fun c => c ≠ ' ')

/-- Membership in the regex character class `[0-9+\-*/.() ]` used by
`_is_valid_expression`. -/
def validChar (c : Char) : Bool :=
  ('0' ≤ c && c ≤ '9') || c = '+' || c = '-' || c = '*' || c = '/' ||
    c = '.' || c = '(' || c = ')' || c = ' '

/-- The part of the string that the anchored pattern `^[...]+$` must cover:
Python's `$` (without `re.MULTILINE`) matches at the end of the string or
just before a single trailing newline, so a final `'\n'` lies outside the
mandatory region. -/
def regexBody (e : List Char) : List Char :=
  match e.getLast? with
  | some '\n' => e.dropLast
  | _ => e

/-- Models `_is_valid_expression`: `bool(re.match(r'^[0-9+\-*/.() ]+$', expression))`,
i.e. the string — up to an optional single trailing newline tolerated by
`$` — is nonempty and every character is in the class. -/
def is_valid_expression (e : List Char) : Bool :=
  !(regexBody e).isEmpty && (regexBody e).all validChar

/-- Characters matched by the regex whitespace class `\s`. -/
def isSpaceChar (c : Char) : Bool :=
  c = ' ' || c = '\t' || c = '\n' || c = '\r' || c = '\x0b' || c = '\x0c'

/-- After a `/`, does the rest of the string match `\s*0(?=[+\-*/\)])|\s*0$`?
The `$` alternative also matches when the `'0'` is followed by a single
trailing newline (the function always receives a true suffix of the whole
string, so an immediately following `['\n']` is a final newline). -/
def divZeroAt (rest : List Char) : Bool :=
  match rest.dropWhile isSpaceChar with
  | '0' :: [] => true
  | '0' :: c :: rest2 =>
    c = '+' || c = '-' || c = '*' || c = '/' || c = ')' ||
      (c = '\n' && rest2.isEmpty)
  | _ => false

/-- Models `_has_division_by_zero`:
`bool(re.search(r'/\s*0(?=[+\-*/\)])|/\s*0$', expression))`. -/
def has_division_by_zero : List Char → Bool
  | [] => false
  | c :: rest => (c = '/' && divZeroAt rest) || has_division_by_zero rest

/-- Outcome of `CalculatorModel.evaluate_expression`: the early `return 0`,
a raised `ValueError`, a raised `ZeroDivisionError`, or reaching the call
`eval(expression)` (the host-language evaluator, external to this model)
with the given cleaned-up string. -/
inductive EvalOutcome where
  | returnsZero
  | valueError
  | zeroDivError
  | callsEval (e : List Char)
  deriving Repr, DecidableEq

/-- Models `CalculatorModel.evaluate_expression` up to the call of the host
evaluator: `if not expression: return 0`, then space removal, then the
allow-list check (raising `ValueError`), then the division-by-zero scan
(raising `ZeroDivisionError`), and otherwise the `eval(...)` call. -/
def evaluate_expression (e : List Char) : EvalOutcome :=
  if e.isEmpty then .returnsZero
  else
    let e := removeSpaces e
    if !is_valid_expression e then .valueError
    else if has_division_by_zero e then .zeroDivError
    else .callsEval e

/-- Models `CalculatorModel.add`. -/
def add (a b : ℚ) : ℚ := a + b

/-- Models `CalculatorModel.subtract`. -/
def subtract (a b : ℚ) : ℚ := a - b

/-- Models `CalculatorModel.multiply`. -/
def multiply (a b : ℚ) : ℚ := a * b

/-- Models `CalculatorModel.divide`: raises `ZeroDivisionError` when `b == 0`,
otherwise returns `a / b`. -/
def divide (a b : ℚ) : Except Unit ℚ :=
  if b = 0 then Except.error () else Except.ok (a / b)

/- ===================== Number parsing and formatting ===================== -/

/-- Renders one decimal digit, as Python's integer-to-string conversion does
digit by digit ('0' has code point 48). -/
def digitChar (n : ℕ) : Char := Char.ofNat (48 + n % 10)

/-- Fuelled decimal rendering of a natural number (most significant digit
first); the fuel only serves structural recursion and `natToDigits` always
supplies enough of it. -/
def natToDigitsAux : ℕ → ℕ → List Char
  | 0, _ => []
  | fuel + 1, n =>
    if n < 10 then [digitChar n]
    else natToDigitsAux fuel (n / 10) ++ [digitChar (n % 10)]

/-- Decimal rendering of a natural number, e.g. `120 ↦ ['1','2','0']`. -/
def natToDigits (n : ℕ) : List Char := natToDigitsAux (n + 1) n

/-- Models Python `str(i)` for an integer `i`: optional leading minus sign,
then the decimal digits. -/
def intToChars (i : ℤ) : List Char :=
  if i < 0 then '-' :: natToDigits i.natAbs else natToDigits i.natAbs

/-- Drops trailing `'0'` characters. -/
def stripTrailingZeros (l : List Char) : List Char :=
  (l.reverse.dropWhile (fun c => c = '0')).reverse

/-- Rounds a nonnegative rational to the nearest integer, ties to even — the
rounding used when rendering a decimal value to a fixed number of
significant digits. -/
def roundHalfEven (x : ℚ) : ℤ :=
  let f := Rat.floor x
  if x - (f : ℚ) < 1 / 2 then f
  else if x - (f : ℚ) > 1 / 2 then f + 1
  else if f % 2 = 0 then f else f + 1

/-- Smallest `k ≥ 1` with `a * 10 ^ k ≥ 1`, for `0 < a < 1` (fuelled; the
caller supplies enough fuel via the size of the denominator). -/
def negExpAux : ℕ → ℚ → ℕ
  | 0, _ => 1
  | fuel + 1, a => if 1 ≤ a * 10 then 1 else negExpAux fuel (a * 10) + 1

/-- The decimal exponent of `a > 0`: the unique `e` with
`10 ^ e ≤ a < 10 ^ (e + 1)`. -/
def decExponent (a : ℚ) : ℤ :=
  if 1 ≤ a then ((natToDigits (Rat.floor a).toNat).length : ℤ) - 1
  else -(negExpAux ((natToDigits a.den).length + 1) a : ℤ)

/-- The six significant decimal digits of `a > 0` as an integer in
`[100000, 1000000)`, together with the decimal exponent after rounding. -/
def sixDigits (a : ℚ) : ℕ × ℤ :=
  let e := decExponent a
  let m := (roundHalfEven (a * (10 : ℚ) ^ (5 - e))).toNat
  if 1000000 ≤ m then (100000, e + 1) else (m, e)

/-- Fixed-point rendering of `%g`: the six digits with the decimal point
after position `e + 1` (leading `"0."` and zeros when `e < 0`), trailing
fractional zeros stripped. -/
def fixedNotation (digits : List Char) (e : ℤ) : List Char :=
  if 0 ≤ e then
    digits.take (e.toNat + 1) ++
      (if (stripTrailingZeros (digits.drop (e.toNat + 1))).isEmpty then []
       else '.' :: stripTrailingZeros (digits.drop (e.toNat + 1)))
  else
    ['0', '.'] ++
      stripTrailingZeros (List.replicate (-e - 1).toNat '0' ++ digits)

/-- Scientific rendering of `%g`: first digit, remaining digits with
trailing zeros stripped, then `e`, the exponent sign and the exponent
padded to at least two digits (e.g. `1e-05`). -/
def sciNotation (digits : List Char) (e : ℤ) : List Char :=
  [digits.headD '0'] ++
    (if (stripTrailingZeros digits.tail).isEmpty then []
     else '.' :: stripTrailingZeros digits.tail) ++
    ['e'] ++ (if e < 0 then ['-'] else ['+']) ++
    (if (natToDigits e.natAbs).length < 2 then '0' :: natToDigits e.natAbs
     else natToDigits e.natAbs)

/-- Models the non-integral branch `f"{result:g}"` of the display formatting:
six significant digits (ties rounded to even), trailing zeros stripped,
scientific notation when the decimal exponent is below -4 or at least 6.
Modelled on the exact decimal value of the rational; the additional rounding
a binary double would introduce beyond these six digits is out of scope. -/
def formatG (q : ℚ) : List Char :=
  if q = 0 then ['0']
  else
    (if q < 0 then ['-'] else []) ++
      (if -4 ≤ (sixDigits |q|).2 ∧ (sixDigits |q|).2 < 6 then
        fixedNotation (natToDigits (sixDigits |q|).1) (sixDigits |q|).2
       else sciNotation (natToDigits (sixDigits |q|).1) (sixDigits |q|).2)

/-- Models the display formatting in `calculate_result` / `calculate_percentage`:
`str(int(result))` when `result == int(result)` (for `ℚ`: denominator 1),
otherwise `f"{result:g}"`. -/
def formatResult (q : ℚ) : List Char :=
  if q.den = 1 then intToChars q.num else formatG q

/-- Parses an unsigned decimal literal: digits with at most one `'.'` and at
least one digit, as Python `float` accepts (`"5."`, `".5"`, `"12"`, ...). -/
def parseUnsigned (cs : List Char) : Option ℚ :=
  let ip := cs.takeWhile (fun c => c ≠ '.')
  match cs.dropWhile (fun c => c ≠ '.') with
  | [] =>
    if !ip.isEmpty && ip.all Char.isDigit then
      some ((ip.foldl (fun a c => 10 * a + (c.toNat - 48)) 0 : ℕ) : ℚ)
    else none
  | _ :: frac =>
    if !frac.contains '.' && ip.all Char.isDigit && frac.all Char.isDigit &&
        (!ip.isEmpty || !frac.isEmpty) then
      some (((ip.foldl (fun a c => 10 * a + (c.toNat - 48)) 0 : ℕ) : ℚ) +
        ((frac.foldl (fun a c => 10 * a + (c.toNat - 48)) 0 : ℕ) : ℚ) /
          (10 : ℚ) ^ frac.length)
    else none

/-- Parses a nonempty run of decimal digits. -/
def parseNatDigits (cs : List Char) : Option ℕ :=
  if !cs.isEmpty && cs.all Char.isDigit then
    some (cs.foldl (fun a c => 10 * a + (c.toNat - 48)) 0)
  else none

/-- Parses the exponent part of a float literal: optional sign then digits. -/
def parseExpPart : List Char → Option ℤ
  | '-' :: rest => (parseNatDigits rest).map (fun n => -(n : ℤ))
  | '+' :: rest => (parseNatDigits rest).map (fun n => (n : ℤ))
  | cs => (parseNatDigits cs).map (fun n => (n : ℤ))

/-- Parses an unsigned float literal: a decimal mantissa with an optional
`e`/`E` exponent, as `%g` can put on the display (e.g. `1e-05`). -/
def parseFloatUnsigned (cs : List Char) : Option ℚ :=
  match cs.dropWhile (fun c => c ≠ 'e' && c ≠ 'E') with
  | [] => parseUnsigned cs
  | _ :: expPart =>
    match parseUnsigned (cs.takeWhile (fun c => c ≠ 'e' && c ≠ 'E')),
        parseExpPart expPart with
    | some m, some ex => some (m * (10 : ℚ) ^ ex)
    | _, _ => none

/-- Models Python `float(s)` on the decimal strings this calculator displays:
optional sign, then a decimal literal with an optional `e`/`E` exponent
(which `%g` results such as `"1e-05"` carry); `none` models a raised
`ValueError` (e.g. on `"Error"`, `""`, `"-"`). `inf`/`nan`, digit-group
underscores and surrounding whitespace never occur on the display and are
not modelled. -/
def parseFloat : List Char → Option ℚ
  | [] => none
  | '-' :: rest => (parseFloatUnsigned rest).map (fun q => -q)
  | '+' :: rest => parseFloatUnsigned rest
  | cs => parseFloatUnsigned cs

/- ===================== CalculatorViewModel (calculator_viewmodel.py) ===================== -/

/-- State of `CalculatorViewModel`: the fields set in `__init__` (the observer
list and the owned `CalculatorModel` are UI glue / stateless and not part of
the state). -/
structure VMState where
  display_value : List Char
  current_input : List Char
  operator : Option Char
  previous_value : ℚ
  should_reset_display : Bool
  deriving Repr, DecidableEq

/-- The state built by `CalculatorViewModel.__init__`. -/
def initState : VMState :=
  { display_value := ['0'], current_input := [], operator := none,
    previous_value := 0, should_reset_display := false }

/-- Models `input_digit` (the digit argument is the one-character string of
the pressed button). -/
def input_digit (st : VMState) (digit : Char) : VMState :=
  let st :=
    if st.should_reset_display then
      { st with display_value := ['0'], should_reset_display := false }
    else st
  if st.display_value = ['0'] then { st with display_value := [digit] }
  else { st with display_value := st.display_value ++ [digit] }

/-- Models Python `s.split(sep)` for a one-character separator. -/
def splitOnChar (sep : Char) : List Char → List (List Char)
  | [] => [[]]
  | c :: cs =>
    match splitOnChar sep cs with
    | [] => [[]]
    | seg :: rest => if c = sep then [] :: seg :: rest else (c :: seg) :: rest

/-- Models Python `s.split(sep)[-1]` (the part after the last separator). -/
def lastSegment (sep : Char) (l : List Char) : List Char :=
  (splitOnChar sep l).getLastD []

/-- Models `display_value.split('/')[-1].split('*')[-1].split('+')[-1].split('-')[-1]`
from `input_decimal`. -/
def currentNumberPart (d : List Char) : List Char :=
  lastSegment '-' (lastSegment '+' (lastSegment '*' (lastSegment '/' d)))

/-- Models `input_decimal`. -/
def input_decimal (st : VMState) : VMState :=
  let st :=
    if st.should_reset_display then
      { st with display_value := ['0'], should_reset_display := false }
    else st
  if '.' ∉ currentNumberPart st.display_value then
    { st with display_value := st.display_value ++ ['.'] }
  else st

/-- The display string `"Error"` set by the exception handlers. -/
def errorDisplay : List Char := ['E', 'r', 'r', 'o', 'r']

/-- The success epilogue of `calculate_result`: format the result into the
display, clear the operator, mark the display for reset, zero the previous
value. -/
def finishCalc (st : VMState) (r : ℚ) : VMState :=
  { st with display_value := formatResult r, operator := none
            should_reset_display := true, previous_value := 0 }

/-- Models `calculate_result`: early return when no operator is pending;
otherwise `float(display_value)` (a parse failure is caught by
`except Exception` and shows `"Error"`), dispatch on the operator
(`divide` raising `ZeroDivisionError`, an unknown operator raising
`ValueError`, both caught and showing `"Error"`), and the success epilogue. -/
def calculate_result (st : VMState) : VMState :=
  match st.operator with
  | none => st
  | some op =>
    match parseFloat st.display_value with
    | none => { st with display_value := errorDisplay }
    | some current =>
      if op = '+' then finishCalc st (add st.previous_value current)
      else if op = '-' then finishCalc st (subtract st.previous_value current)
      else if op = '*' then finishCalc st (multiply st.previous_value current)
      else if op = '/' then
        match divide st.previous_value current with
        | Except.error _ => { st with display_value := errorDisplay }
        | Except.ok r => finishCalc st r
      else { st with display_value := errorDisplay }

/-- Models `input_operator`: evaluate a pending operation first (only when the
display is not marked for reset), then `previous_value = float(display_value)`
— which raises an uncaught `ValueError` on an unparseable display, modelled
as `Except.error` carrying the state as mutated so far — then store the new
operator and mark the display for reset. -/
def input_operator (st : VMState) (op : Char) : Except VMState VMState :=
  let st :=
    if st.operator.isSome && !st.should_reset_display then calculate_result st
    else st
  match parseFloat st.display_value with
  | none => Except.error st
  | some v =>
    Except.ok { st with previous_value := v, operator := some op
                        should_reset_display := true }

/-- Models `clear_all`: reset every state field to its initial value. -/
def clear_all (st : VMState) : VMState :=
  { st with display_value := ['0'], current_input := [], operator := none
            previous_value := 0, should_reset_display := false }

/-- Models `clear_entry`. -/
def clear_entry (st : VMState) : VMState :=
  { st with display_value := ['0'], current_input := [] }

/-- Models `backspace`. -/
def backspace (st : VMState) : VMState :=
  if st.display_value.length > 1 then
    { st with display_value := st.display_value.dropLast }
  else { st with display_value := ['0'] }

/-- Models `toggle_sign`: on a display other than `"0"`, strip a leading
`'-'` if present (`display_value[1:]`), else prepend one. -/
def toggle_sign (st : VMState) : VMState :=
  if st.display_value ≠ ['0'] then
    if st.display_value.head? = some '-' then
      { st with display_value := st.display_value.tail }
    else { st with display_value := '-' :: st.display_value }
  else st

/-- Models `calculate_percentage`: divide the parsed display by 100 and
format it back (a parse failure shows `"Error"`). -/
def calculate_percentage (st : VMState) : VMState :=
  match parseFloat st.display_value with
  | none => { st with display_value := errorDisplay }
  | some v => { st with display_value := formatResult (v / 100) }

/- ===================== Keystrokes and reachability ===================== -/

/-- One user keystroke, as wired by the View to the ViewModel commands. -/
inductive Key where
  | digit (c : Char)
  | dot
  | op (c : Char)
  | eq
  | clear
  | clearEntry
  | back
  | sign
  | pct
  deriving Repr, DecidableEq

/-- The keystrokes the View can actually send: digit buttons carry a decimal
digit, operator buttons one of the four operators. -/
def validKey : Key → Bool
  | .digit c => c.isDigit
  | .op c => c = '+' || c = '-' || c = '*' || c = '/'
  | _ => true

/-- Running `input_operator` from the UI: an uncaught exception leaves the
object in its partially mutated state (Tkinter swallows the exception). -/
def applyOperatorKey (st : VMState) (c : Char) : VMState :=
  match input_operator st c with
  | Except.ok s => s
  | Except.error s => s

/-- One step of the ViewModel under a keystroke. -/
def step (st : VMState) : Key → VMState
  | .digit c => input_digit st c
  | .dot => input_decimal st
  | .op c => applyOperatorKey st c
  | .eq => calculate_result st
  | .clear => clear_all st
  | .clearEntry => clear_entry st
  | .back => backspace st
  | .sign => toggle_sign st
  | .pct => calculate_percentage st

/-- Folding a keystroke sequence over the ViewModel. -/
def run (st : VMState) (ks : List Key) : VMState := ks.foldl step st

/-- A ViewModel state reachable from the initial state by valid keystrokes. -/
def Reachable (st : VMState) : Prop :=
  ∃ ks : List Key, ks.all validKey = true ∧ run initState ks = st

/-- The allow-list as the specification states it: digits 0-9 and the seven
characters `+ - * / . ( )` (the regex class additionally lists the space
character, but spaces are removed before validation). -/
def claimAllowed (c : Char) : Bool :=
  ('0' ≤ c && c ≤ '9') || c = '+' || c = '-' || c = '*' || c = '/' ||
    c = '.' || c = '(' || c = ')'

/- ===================== Helper lemmas ===================== -/

instance {ε α : Type} [DecidableEq ε] [DecidableEq α] : DecidableEq (Except ε α) :=
  fun a b =>
    match a, b with
    | Except.ok x, Except.ok y =>
      if h : x = y then isTrue (by rw [h])
      else isFalse (fun e => h (Except.ok.inj e))
    | Except.error x, Except.error y =>
      if h : x = y then isTrue (by rw [h])
      else isFalse (fun e => h (Except.error.inj e))
    | Except.ok _, Except.error _ => isFalse (fun e => Except.noConfusion e)
    | Except.error _, Except.ok _ => isFalse (fun e => Except.noConfusion e)

theorem validChar_eq_false {c : Char} (h1 : claimAllowed c = false) (h2 : c ≠ ' ') :
    validChar c = false := by
  simp only [claimAllowed, Bool.or_eq_false_iff] at h1
  simp only [validChar, Bool.or_eq_false_iff]
  refine ⟨⟨h1.1, ?_⟩, by simpa using h2⟩
  simp only [decide_eq_false_iff_not] at h1 ⊢
  tauto

theorem regexBody_mem {e : List Char} {c : Char} (h : c ∈ regexBody e) :
    c ∈ e := by
  unfold regexBody at h
  split at h
  · exact List.dropLast_subset e h
  · exact h

theorem is_valid_expression_eq_false {e : List Char} {c : Char}
    (hc : c ∈ regexBody e) (hval : validChar c = false) :
    is_valid_expression e = false := by
  simp only [is_valid_expression, Bool.and_eq_false_iff]
  right
  rw [List.all_eq_false]
  exact ⟨c, hc, by simp [hval]⟩

end GUICalculator

namespace GUICalculator

/- ===================== Claims ===================== -/

/-- C3 counterexample: `"1+1\n"` is non-empty and contains `'\n'`, which is
outside the allow-list, yet the program accepts it — Python's `$` matches
just before the trailing newline, so `re.match` succeeds, no `ValueError`
is raised, and the host-language evaluator IS reached. -/
theorem claim_C3_counterexample :
    (['1', '+', '1', '\n'] : List Char) ≠ [] ∧
    '\n' ∈ removeSpaces ['1', '+', '1', '\n'] ∧
    claimAllowed '\n' = false ∧
    evaluate_expression ['1', '+', '1', '\n'] =
      EvalOutcome.callsEval ['1', '+', '1', '\n'] ∧
    EvalOutcome.callsEval ['1', '+', '1', '\n'] ≠
      EvalOutcome.valueError := by decide

/-- C3 (amended): for every non-empty expression which, after the removal
of spaces, contains a character outside the allow-list of digits and
`+ - * / . ( )` at a position other than a single trailing newline (which
`$` tolerates), `evaluate_expression` raises `ValueError` and in particular
never reaches the host-language evaluator. -/
theorem claim_C3_amended_invalid_char_raises (e : List Char) (hne : e ≠ [])
    (hbad : ∃ c ∈ regexBody (removeSpaces e), claimAllowed c = false) :
    evaluate_expression e = EvalOutcome.valueError ∧
      ∀ s, evaluate_expression e ≠ EvalOutcome.callsEval s := by
  obtain ⟨c, hc, hca⟩ := hbad
  have hsp : c ≠ ' ' := by
    have := List.mem_filter.mp (regexBody_mem hc)
    simpa using this.2
  have hvc : validChar c = false := validChar_eq_false hca hsp
  have hval : is_valid_expression (removeSpaces e) = false :=
    is_valid_expression_eq_false hc hvc
  have hnem : e.isEmpty = false := by simpa using hne
  have : evaluate_expression e = EvalOutcome.valueError := by
    unfold evaluate_expression
    rw [hnem]
    simp [hval]
  exact ⟨this, fun s h => by rw [this] at h; exact EvalOutcome.noConfusion h⟩

/-- Witness for C3 (amended) at the concrete input `"2a"`. -/
theorem claim_C3_amended_invalid_char_raises_witness :
    evaluate_expression ['2', 'a'] = EvalOutcome.valueError :=
  (claim_C3_amended_invalid_char_raises ['2', 'a'] (by decide)
    ⟨'a', by decide, by decide⟩).1

/-- C4: the Model's four arithmetic operations return the standard results,
and `divide` raises `ZeroDivisionError` exactly when the divisor is zero. -/
theorem claim_C4_model_arithmetic (a b : ℚ) :
    add a b = a + b ∧ subtract a b = a - b ∧ multiply a b = a * b ∧
      (b ≠ 0 → divide a b = Except.ok (a / b)) ∧
      (b = 0 → divide a b = Except.error ()) := by
  refine ⟨rfl, rfl, rfl, fun h => ?_, fun h => ?_⟩ <;> simp [divide, h]

/-- Witness for C4 at the concrete inputs `(2, 3)`, `(10, 2)` and `(10, 0)`. -/
theorem claim_C4_model_arithmetic_witness :
    add 2 3 = 5 ∧ divide 10 2 = Except.ok 5 ∧ divide 10 0 = Except.error () := by
  refine ⟨(claim_C4_model_arithmetic 2 3).1.trans (by norm_num), ?_,
    (claim_C4_model_arithmetic 10 0).2.2.2.2 rfl⟩
  rw [(claim_C4_model_arithmetic 10 2).2.2.2.1 (by norm_num)]
  norm_num

/-- C8: `clear_all` restores the freshly-initialized state: display `"0"`,
no pending operator, `previous_value = 0`, reset flag cleared. -/
theorem claim_C8_clear_all_resets (st : VMState) (_h : Reachable st) :
    clear_all st = initState := rfl

/-- Witness for C8 at the (reachable) initial state. -/
theorem claim_C8_clear_all_resets_witness : clear_all initState = initState :=
  claim_C8_clear_all_resets initState ⟨[], rfl, rfl⟩

/-- C9: `evaluate_expression` on the empty string returns 0 without raising
and without consulting the validator (which rejects the empty string) or
the host-language evaluator. -/
theorem claim_C9_empty_expression_returns_zero :
    evaluate_expression [] = EvalOutcome.returnsZero ∧
      is_valid_expression [] = false := ⟨rfl, rfl⟩

/-- C10: when `calculate_result` fails (unparseable display, division by
zero, or an unknown operator), the display becomes exactly `"Error"` and
the operator, previous value and reset flag keep their prior values. -/
theorem claim_C10_error_path_state (st : VMState) (op : Char)
    (hop : st.operator = some op)
    (hfail : parseFloat st.display_value = none ∨
      (op = '/' ∧ parseFloat st.display_value = some 0) ∨
      (op ≠ '+' ∧ op ≠ '-' ∧ op ≠ '*' ∧ op ≠ '/')) :
    calculate_result st = { st with display_value := errorDisplay } := by
  rcases hfail with h | ⟨hdiv, h⟩ | ⟨h1, h2, h3, h4⟩
  · simp [calculate_result, hop, h]
  · subst hdiv
    simp [calculate_result, hop, h, divide]
  · cases hpf : parseFloat st.display_value with
    | none => simp [calculate_result, hop, hpf]
    | some x => simp [calculate_result, hop, hpf, h1, h2, h3, h4]

/-- Witness for C10 at a pending division whose second operand is zero. -/
theorem claim_C10_error_path_state_witness :
    calculate_result
      { display_value := ['0'], current_input := [], operator := some '/'
        previous_value := 5, should_reset_display := false } =
    { display_value := errorDisplay, current_input := [], operator := some '/'
      previous_value := 5, should_reset_display := false } :=
  claim_C10_error_path_state _ '/' rfl (Or.inr (Or.inl ⟨rfl, by decide⟩))

/-- C2: with a pending operator among `+ - * /`, a display parsing to `x`
(nonzero for `/`), `calculate_result` sets the display to the formatted
result of applying the operator to `previous_value` and `x` — an integer
string when the result is integral — clears the operator, zeroes
`previous_value` and marks the display for reset. -/
theorem claim_C2_calculate_result_success (st : VMState) (op : Char) (x r : ℚ)
    (hop : st.operator = some op)
    (hx : parseFloat st.display_value = some x)
    (hcases : op = '+' ∨ op = '-' ∨ op = '*' ∨ op = '/')
    (hdiv : op = '/' → x ≠ 0)
    (hr : r = if op = '+' then add st.previous_value x
          else if op = '-' then subtract st.previous_value x
          else if op = '*' then multiply st.previous_value x
          else st.previous_value / x) :
    calculate_result st =
      { st with display_value := formatResult r, operator := none
                previous_value := 0, should_reset_display := true } ∧
      (r.den = 1 → formatResult r = intToChars r.num) := by
  constructor
  · rcases hcases with rfl | rfl | rfl | rfl
    · simp only [Char.reduceEq, reduceIte] at hr
      subst hr
      simp [calculate_result, hop, hx, finishCalc]
    · simp only [Char.reduceEq, reduceIte] at hr
      subst hr
      simp [calculate_result, hop, hx, finishCalc]
    · simp only [Char.reduceEq, reduceIte] at hr
      subst hr
      simp [calculate_result, hop, hx, finishCalc]
    · simp only [Char.reduceEq, reduceIte] at hr
      subst hr
      simp [calculate_result, hop, hx, finishCalc, divide, hdiv rfl]
  · intro h
    unfold formatResult
    rw [if_pos h]

/-- Witness for C2 at `5 + 7` with the display showing `"7"`. -/
theorem claim_C2_calculate_result_success_witness :
    calculate_result
      { display_value := ['7'], current_input := [], operator := some '+'
        previous_value := 5, should_reset_display := false } =
    { display_value := ['1', '2'], current_input := [], operator := none
      previous_value := 0, should_reset_display := true } := by
  have h := claim_C2_calculate_result_success
    { display_value := ['7'], current_input := [], operator := some '+'
      previous_value := 5, should_reset_display := false }
    '+' 7 12 rfl (by decide) (Or.inl rfl) (by decide)
    (by norm_num [add])
  rw [h.1]
  have hf : formatResult (12 : ℚ) = ['1', '2'] := by decide
  rw [hf]

/-- C1 counterexample: in the state reached right after pressing `5` then
`+` (operator pending, display marked for reset), pressing `-` does NOT
evaluate the pending `5 + 5` (which would show `10` and store `10`): the
code skips evaluation and stores the unevaluated display value `5`. -/
theorem claim_C1_counterexample :
    (VMState.operator ⟨['5'], [], some '+', 5, true⟩ = some '+') ∧
    input_operator (⟨['5'], [], some '+', 5, true⟩ : VMState) '-' =
      Except.ok ⟨['5'], [], some '-', 5, true⟩ ∧
    (calculate_result ⟨['5'], [], some '+', 5, true⟩).display_value = ['1', '0'] ∧
    input_operator (⟨['5'], [], some '+', 5, true⟩ : VMState) '-' ≠
      Except.ok
        ⟨(calculate_result ⟨['5'], [], some '+', 5, true⟩).display_value,
         (calculate_result ⟨['5'], [], some '+', 5, true⟩).current_input,
         some '-', 10, true⟩ := by
  have hp : parseFloat ['5'] = some (5 : ℚ) := by decide
  have hadd : add (5 : ℚ) 5 = 10 := by norm_num [add]
  have hf : formatResult (10 : ℚ) = ['1', '0'] := by decide
  have hc : calculate_result (⟨['5'], [], some '+', 5, true⟩ : VMState) =
      ⟨['1', '0'], [], none, 0, true⟩ := by
    simp [calculate_result, hp, hadd, finishCalc, hf]
  refine ⟨rfl, by decide, by rw [hc], ?_⟩
  rw [hc]
  decide

/-- C1 (amended): when an operator is pending AND the display is not marked
for reset (and the evaluated display parses as a number `v`),
`input_operator` first evaluates the pending operation with the current
display as second operand, then stores the resulting display value `v` as
`previous_value` and the new operator as the pending operator. -/
theorem claim_C1_amended_chained_op (st : VMState) (op : Char) (v : ℚ)
    (hpend : st.operator.isSome = true)
    (hrs : st.should_reset_display = false)
    (hv : parseFloat (calculate_result st).display_value = some v) :
    input_operator st op =
      Except.ok { calculate_result st with
        previous_value := v, operator := some op, should_reset_display := true } := by
  unfold input_operator
  simp [hpend, hrs, hv]

/-- Witness for C1 (amended): pressing `*` in the state `3 + `, display `"5"`
evaluates `3 + 5 = 8` and stores `8` as the previous value. -/
theorem claim_C1_amended_chained_op_witness :
    input_operator (⟨['5'], [], some '+', 3, false⟩ : VMState) '*' =
      Except.ok ⟨['8'], [], some '*', 8, true⟩ := by
  have hp : parseFloat ['5'] = some (5 : ℚ) := by decide
  have hadd : add (3 : ℚ) 5 = 8 := by norm_num [add]
  have hf : formatResult (8 : ℚ) = ['8'] := by decide
  have hc : calculate_result (⟨['5'], [], some '+', 3, false⟩ : VMState) =
      ⟨['8'], [], none, 0, true⟩ := by
    simp [calculate_result, hp, hadd, finishCalc, hf]
  have h := claim_C1_amended_chained_op (⟨['5'], [], some '+', 3, false⟩ : VMState)
    '*' 8 rfl rfl (by rw [hc]; decide)
  rw [h]
  simp only [hc]

/-- C5 counterexample: pressing the digits `0` then `5` from the initial
display `"0"` leaves the display `"5"`, not the concatenation `"05"`. -/
theorem claim_C5_counterexample :
    initState.display_value = ['0'] ∧ initState.should_reset_display = false ∧
    ((['0', '5'] : List Char).foldl input_digit initState).display_value = ['5'] ∧
    (['5'] : List Char) ≠ ['0', '5'] := by decide

theorem foldl_input_digit (ds : List Char) : ∀ st : VMState,
    st.should_reset_display = false → st.display_value ≠ [] →
    st.display_value ≠ ['0'] →
    ds.foldl input_digit st =
      { st with display_value := st.display_value ++ ds } := by
  induction ds with
  | nil => intro st _ _ _; simp
  | cons c cs ih =>
    intro st h1 h2 h3
    rw [List.foldl_cons]
    have hstep : input_digit st c =
        { st with display_value := st.display_value ++ [c] } := by
      unfold input_digit
      rw [h1]
      simp [h1, h3]
    rw [hstep]
    have hne : ({ st with display_value := st.display_value ++ [c] } :
        VMState).display_value ≠ ['0'] := by
      intro heq
      have := congrArg List.length heq
      simp at this
      exact h2 this
    rw [ih { st with display_value := st.display_value ++ [c] }
      (by simpa using h1) (by simp) hne]
    simp

/-- C5 (amended): starting from a display of `"0"` with no pending reset,
a nonempty sequence of digit keystrokes whose FIRST digit is not `'0'`
leaves the display equal to the concatenation of the digits (the first
digit replaces the `"0"`, each subsequent one is appended); a leading
`'0'` keystroke is instead absorbed, as the counterexample shows. -/
theorem claim_C5_amended_digit_concat (st : VMState) (d : Char) (ds : List Char)
    (h0 : st.display_value = ['0'])
    (hrs : st.should_reset_display = false)
    (hd : d ≠ '0')
    (_hdig : (d :: ds).all Char.isDigit = true) :
    ((d :: ds).foldl input_digit st).display_value = d :: ds := by
  rw [List.foldl_cons]
  have hstep : input_digit st d = { st with display_value := [d] } := by
    unfold input_digit
    rw [hrs]
    simp [hrs, h0]
  rw [hstep]
  rw [foldl_input_digit ds { st with display_value := [d] } (by simpa using hrs)
    (by simp) (by simp [hd])]
  simp

/-- Witness for C5 (amended) on the digit sequence `1, 2, 3`. -/
theorem claim_C5_amended_digit_concat_witness :
    ((['1', '2', '3'] : List Char).foldl input_digit initState).display_value =
      ['1', '2', '3'] :=
  claim_C5_amended_digit_concat initState '1' ['2', '3'] rfl rfl (by decide)
    (by decide)

/-- The keystrokes C6 quantifies over: digit buttons and the decimal point. -/
def digitDotKey : Key → Bool
  | .digit c => c.isDigit
  | .dot => true
  | _ => false

/-- Invariant maintained by digit/decimal keystrokes: the display is a
nonempty string of digits and at most one decimal point, and no reset is
pending. -/
def DigitDotInv (st : VMState) : Prop :=
  st.display_value ≠ [] ∧
    (∀ c ∈ st.display_value, c.isDigit = true ∨ c = '.') ∧
    st.display_value.count '.' ≤ 1 ∧ st.should_reset_display = false

theorem isDigit_not_special {c : Char} (h : c.isDigit = true) :
    c ≠ '/' ∧ c ≠ '*' ∧ c ≠ '+' ∧ c ≠ '-' ∧ c ≠ '.' := by
  refine ⟨?_, ?_, ?_, ?_, ?_⟩ <;> rintro rfl <;> exact absurd h (by decide)

theorem splitOnChar_of_not_mem (sep : Char) (l : List Char) (h : sep ∉ l) :
    splitOnChar sep l = [l] := by
  induction l with
  | nil => rfl
  | cons c cs ih =>
    simp only [List.mem_cons, not_or] at h
    unfold splitOnChar
    rw [ih h.2]
    have hcs : c ≠ sep := fun hcs => h.1 hcs.symm
    simp [hcs]

theorem lastSegment_of_not_mem (sep : Char) (l : List Char) (h : sep ∉ l) :
    lastSegment sep l = l := by
  unfold lastSegment
  rw [splitOnChar_of_not_mem sep l h]
  rfl

theorem currentNumberPart_of_digits_dot (d : List Char)
    (h : ∀ c ∈ d, c.isDigit = true ∨ c = '.') : currentNumberPart d = d := by
  have hno : ∀ s : Char, (s = '/' ∨ s = '*' ∨ s = '+' ∨ s = '-') → s ∉ d := by
    intro s hs hmem
    rcases h s hmem with hd | hd
    · obtain ⟨n1, n2, n3, n4, _⟩ := isDigit_not_special hd
      rcases hs with rfl | rfl | rfl | rfl <;> simp_all
    · subst hd
      rcases hs with h' | h' | h' | h' <;> exact absurd h' (by decide)
  unfold currentNumberPart
  rw [lastSegment_of_not_mem '/' d (hno '/' (by simp)),
    lastSegment_of_not_mem '*' d (hno '*' (by simp)),
    lastSegment_of_not_mem '+' d (hno '+' (by simp)),
    lastSegment_of_not_mem '-' d (hno '-' (by simp))]

theorem digit_dot_inv_step (st : VMState) (k : Key)
    (hst : DigitDotInv st) (hk : digitDotKey k = true) :
    DigitDotInv (step st k) := by
  obtain ⟨hne, hmem, hcount, hrs⟩ := hst
  cases k with
  | digit c =>
    have hc : c.isDigit = true := hk
    have hcd : c ≠ '.' := (isDigit_not_special hc).2.2.2.2
    show DigitDotInv (input_digit st c)
    unfold input_digit
    rw [hrs]
    simp only [Bool.false_eq_true, if_false]
    by_cases h0 : st.display_value = ['0']
    · rw [if_pos h0]
      exact ⟨by simp, by simpa using Or.inl hc, by simp [List.count_cons, hcd], hrs⟩
    · rw [if_neg h0]
      refine ⟨by simp, ?_, ?_, hrs⟩
      · intro x hx
        simp only [VMState.display_value] at hx
        rcases List.mem_append.mp hx with hx | hx
        · exact hmem x hx
        · simp only [List.mem_singleton] at hx
          subst hx
          exact Or.inl hc
      · simpa [List.count_append, List.count_cons, hcd] using hcount
  | dot =>
    show DigitDotInv (input_decimal st)
    unfold input_decimal
    rw [hrs]
    simp only [Bool.false_eq_true, if_false]
    rw [currentNumberPart_of_digits_dot st.display_value hmem]
    by_cases hdot : '.' ∈ st.display_value
    · rw [if_neg (by simpa using hdot)]
      exact ⟨hne, hmem, hcount, hrs⟩
    · rw [if_pos (by simpa using hdot)]
      refine ⟨by simp, ?_, ?_, hrs⟩
      · intro x hx
        simp only [VMState.display_value] at hx
        rcases List.mem_append.mp hx with hx | hx
        · exact hmem x hx
        · simp only [List.mem_singleton] at hx
          exact Or.inr hx
      · have : st.display_value.count '.' = 0 := List.count_eq_zero.mpr hdot
        simp [List.count_append, this]
  | op c => exact absurd hk (by simp [digitDotKey])
  | eq => exact absurd hk (by simp [digitDotKey])
  | clear => exact absurd hk (by simp [digitDotKey])
  | clearEntry => exact absurd hk (by simp [digitDotKey])
  | back => exact absurd hk (by simp [digitDotKey])
  | sign => exact absurd hk (by simp [digitDotKey])
  | pct => exact absurd hk (by simp [digitDotKey])

theorem digit_dot_inv_run (ks : List Key) : ∀ st : VMState, DigitDotInv st →
    ks.all digitDotKey = true → DigitDotInv (run st ks) := by
  induction ks with
  | nil => intro st h _; exact h
  | cons k ks ih =>
    intro st h hall
    simp only [List.all_cons, Bool.and_eq_true] at hall
    exact ih (step st k) (digit_dot_inv_step st k h hall.1) hall.2

/-- C6: after any sequence of digit / decimal-point keystrokes from the
initial state, the display contains at most one `'.'`; moreover
`input_decimal` leaves such a state unchanged when a `'.'` is already
present, and otherwise appends exactly one `'.'`. -/
theorem claim_C6_single_decimal_point (ks : List Key)
    (hk : ks.all digitDotKey = true) :
    (run initState ks).display_value.count '.' ≤ 1 ∧
    ('.' ∈ (run initState ks).display_value →
      input_decimal (run initState ks) = run initState ks) ∧
    ('.' ∉ (run initState ks).display_value →
      (input_decimal (run initState ks)).display_value =
        (run initState ks).display_value ++ ['.']) := by
  obtain ⟨hne, hmem, hcount, hrs⟩ :=
    digit_dot_inv_run ks initState ⟨by decide, by decide, by decide, rfl⟩ hk
  refine ⟨hcount, ?_, ?_⟩
  · intro hdot
    unfold input_decimal
    rw [hrs]
    simp only [Bool.false_eq_true, if_false]
    rw [currentNumberPart_of_digits_dot _ hmem]
    rw [if_neg (by simpa using hdot)]
  · intro hdot
    unfold input_decimal
    rw [hrs]
    simp only [Bool.false_eq_true, if_false]
    rw [currentNumberPart_of_digits_dot _ hmem]
    rw [if_pos (by simpa using hdot)]

/-- Witness for C6 on the keystroke sequence `1 . 5`. -/
theorem claim_C6_single_decimal_point_witness :
    (run initState [Key.digit '1', Key.dot, Key.digit '5']).display_value.count
      '.' ≤ 1 ∧
    ('.' ∈ (run initState [Key.digit '1', Key.dot, Key.digit '5']).display_value →
      input_decimal (run initState [Key.digit '1', Key.dot, Key.digit '5']) =
        run initState [Key.digit '1', Key.dot, Key.digit '5']) ∧
    ('.' ∉ (run initState [Key.digit '1', Key.dot, Key.digit '5']).display_value →
      (input_decimal
        (run initState [Key.digit '1', Key.dot, Key.digit '5'])).display_value =
        (run initState [Key.digit '1', Key.dot, Key.digit '5']).display_value ++
          ['.']) :=
  claim_C6_single_decimal_point [Key.digit '1', Key.dot, Key.digit '5']
    (by decide)

/-- Displays never beginning with two minus signs — the invariant that makes
`toggle_sign` an involution away from `"-0"`. -/
def noDoubleMinus (d : List Char) : Prop := d.take 2 ≠ ['-', '-']

theorem digitChar_ne_minus (m : ℕ) : digitChar m ≠ '-' := by
  unfold digitChar
  have h : m % 10 < 10 := Nat.mod_lt _ (by norm_num)
  set k := m % 10 with hk
  interval_cases k <;> decide

theorem natToDigitsAux_mem : ∀ fuel n : ℕ, ∀ c ∈ natToDigitsAux fuel n,
    ∃ m, c = digitChar m := by
  intro fuel
  induction fuel with
  | zero => intro n c hc; simp [natToDigitsAux] at hc
  | succ f ih =>
    intro n c hc
    unfold natToDigitsAux at hc
    split at hc
    · simp at hc
      exact ⟨n, hc⟩
    · rcases List.mem_append.mp hc with hc | hc
      · exact ih _ c hc
      · simp at hc
        exact ⟨n % 10, hc⟩

theorem natToDigits_mem_ne_minus (n : ℕ) (c : Char) (hc : c ∈ natToDigits n) :
    c ≠ '-' := by
  obtain ⟨m, rfl⟩ := natToDigitsAux_mem _ _ c hc
  exact digitChar_ne_minus m

theorem natToDigits_ne_nil (n : ℕ) : natToDigits n ≠ [] := by
  unfold natToDigits natToDigitsAux
  split <;> simp

theorem ndm_of_head_ne (d : List Char)
    (h : ∀ c, d.head? = some c → c ≠ '-') : noDoubleMinus d := by
  unfold noDoubleMinus
  rcases d with _ | ⟨c, t⟩
  · simp
  · have hc := h c rfl
    rcases t with _ | ⟨c2, t2⟩
    · simp
    · have ht : List.take 2 (c :: c2 :: t2) = [c, c2] := rfl
      rw [ht]
      simp [hc]

theorem ndm_minus_cons (l : List Char) (h : l.head? ≠ some '-') :
    noDoubleMinus ('-' :: l) := by
  unfold noDoubleMinus
  rcases l with _ | ⟨c, t⟩
  · simp
  · have ht : List.take 2 ('-' :: c :: t) = ['-', c] := rfl
    rw [ht]
    have hc : c ≠ '-' := by simpa using h
    simp [hc]

theorem ndm_append (d : List Char) (c : Char) (h : noDoubleMinus d)
    (hc : c ≠ '-') : noDoubleMinus (d ++ [c]) := by
  unfold noDoubleMinus at h ⊢
  rcases d with _ | ⟨x, _ | ⟨y, t⟩⟩
  · simp [hc]
  · have ht : List.take 2 ([x] ++ [c]) = [x, c] := rfl
    rw [ht]
    simp [hc]
  · have ht : List.take 2 (x :: y :: t ++ [c]) = [x, y] := rfl
    rw [ht]
    have h2 : List.take 2 (x :: y :: t) = [x, y] := rfl
    rw [h2] at h
    exact h

theorem ndm_dropLast (d : List Char) (h : noDoubleMinus d) :
    noDoubleMinus d.dropLast := by
  unfold noDoubleMinus at h ⊢
  rcases d with _ | ⟨x, _ | ⟨y, _ | ⟨z, t⟩⟩⟩
  · simp
  · simp
  · have ht : ([x, y] : List Char).dropLast = [x] := rfl
    rw [ht]
    simp
  · have ht : (x :: y :: z :: t).dropLast = x :: y :: (z :: t).dropLast := rfl
    rw [ht]
    have h1 : List.take 2 (x :: y :: (z :: t).dropLast) = [x, y] := rfl
    have h2 : List.take 2 (x :: y :: z :: t) = [x, y] := rfl
    rw [h1]
    rw [h2] at h
    exact h

theorem ndm_intToChars (i : ℤ) : noDoubleMinus (intToChars i) := by
  unfold intToChars
  split
  · apply ndm_minus_cons
    rcases hnd : natToDigits i.natAbs with _ | ⟨c, t⟩
    · simp
    · have hc : c ∈ natToDigits i.natAbs := by rw [hnd]; simp
      have := natToDigits_mem_ne_minus _ c hc
      simp [this]
  · apply ndm_of_head_ne
    intro c hc
    exact natToDigits_mem_ne_minus i.natAbs c (List.mem_of_mem_head? hc)

theorem natToDigits_cons (n : ℕ) :
    ∃ c t, natToDigits n = c :: t ∧ c ≠ '-' := by
  rcases hnd : natToDigits n with _ | ⟨c, t⟩
  · exact absurd hnd (natToDigits_ne_nil n)
  · exact ⟨c, t, rfl, natToDigits_mem_ne_minus n c (by rw [hnd]; simp)⟩

theorem fixedNotation_head (c : Char) (t : List Char) (e : ℤ) :
    ∃ c' t', fixedNotation (c :: t) e = c' :: t' ∧ (c' = c ∨ c' = '0') := by
  unfold fixedNotation
  split
  · rw [List.take_succ_cons, List.cons_append]
    exact ⟨c, _, rfl, Or.inl rfl⟩
  · exact ⟨'0', _, rfl, Or.inr rfl⟩

theorem sciNotation_head (c : Char) (t : List Char) (e : ℤ) :
    ∃ t', sciNotation (c :: t) e = c :: t' := by
  unfold sciNotation
  rw [List.headD_cons]
  exact ⟨_, rfl⟩

theorem ndm_formatG (q : ℚ) : noDoubleMinus (formatG q) := by
  unfold formatG
  split
  · unfold noDoubleMinus
    decide
  · obtain ⟨c, t, hnd, hc⟩ := natToDigits_cons (sixDigits |q|).1
    have hbody : ∃ c' t',
        (if -4 ≤ (sixDigits |q|).2 ∧ (sixDigits |q|).2 < 6 then
          fixedNotation (natToDigits (sixDigits |q|).1) (sixDigits |q|).2
         else sciNotation (natToDigits (sixDigits |q|).1) (sixDigits |q|).2) =
          c' :: t' ∧ c' ≠ '-' := by
      split
      · rw [hnd]
        obtain ⟨c', t', hf, hor⟩ := fixedNotation_head c t (sixDigits |q|).2
        refine ⟨c', t', hf, ?_⟩
        rcases hor with rfl | rfl
        · exact hc
        · decide
      · rw [hnd]
        obtain ⟨t', hs⟩ := sciNotation_head c t (sixDigits |q|).2
        exact ⟨c, t', hs, hc⟩
    obtain ⟨c', t', hb, hc'⟩ := hbody
    rw [hb]
    split
    · exact ndm_minus_cons _ (by simp [hc'])
    · rw [List.nil_append]
      apply ndm_of_head_ne
      intro x hx
      simp at hx
      rw [← hx]
      exact hc'

theorem ndm_formatResult (q : ℚ) : noDoubleMinus (formatResult q) := by
  unfold formatResult
  split
  · exact ndm_intToChars q.num
  · exact ndm_formatG q

theorem ndm_errorDisplay : noDoubleMinus errorDisplay := by
  unfold noDoubleMinus
  decide

theorem calc_display_cases (st : VMState) :
    (calculate_result st).display_value = st.display_value ∨
    (calculate_result st).display_value = errorDisplay ∨
    ∃ r, (calculate_result st).display_value = formatResult r := by
  rcases hop : st.operator with _ | op
  · left
    simp [calculate_result, hop]
  · rcases hpf : parseFloat st.display_value with _ | x
    · right; left
      simp [calculate_result, hop, hpf]
    · simp only [calculate_result, hop, hpf]
      split
      · exact Or.inr (Or.inr ⟨add st.previous_value x, by simp [finishCalc]⟩)
      · split
        · exact Or.inr (Or.inr
            ⟨subtract st.previous_value x, by simp [finishCalc]⟩)
        · split
          · exact Or.inr (Or.inr
              ⟨multiply st.previous_value x, by simp [finishCalc]⟩)
          · split
            · cases hdv : divide st.previous_value x with
              | error u =>
                right; left
                simp [hdv]
              | ok r =>
                right; right
                exact ⟨r, by simp [hdv, finishCalc]⟩
            · right; left
              simp

theorem ndm_calc (st : VMState) (h : noDoubleMinus st.display_value) :
    noDoubleMinus (calculate_result st).display_value := by
  rcases calc_display_cases st with hc | hc | ⟨r, hc⟩ <;> rw [hc]
  · exact h
  · exact ndm_errorDisplay
  · exact ndm_formatResult r

theorem applyOperatorKey_eq (st : VMState) (c : Char) :
    applyOperatorKey st c =
      match parseFloat (if st.operator.isSome && !st.should_reset_display
          then calculate_result st else st).display_value with
      | none =>
        (if st.operator.isSome && !st.should_reset_display
         then calculate_result st else st)
      | some v =>
        { (if st.operator.isSome && !st.should_reset_display
           then calculate_result st else st) with
          previous_value := v, operator := some c
          should_reset_display := true } := by
  unfold applyOperatorKey input_operator
  rcases hpf : parseFloat (if st.operator.isSome && !st.should_reset_display
    then calculate_result st else st).display_value with _ | v <;>
      simp only [hpf]

theorem applyOperatorKey_display (st : VMState) (c : Char) :
    (applyOperatorKey st c).display_value = (calculate_result st).display_value ∨
    (applyOperatorKey st c).display_value = st.display_value := by
  rw [applyOperatorKey_eq]
  cases hpf : parseFloat (if st.operator.isSome && !st.should_reset_display
      then calculate_result st else st).display_value with
  | none =>
    by_cases hcond : (st.operator.isSome && !st.should_reset_display) = true
    · left
      rw [if_pos hcond]
    · right
      rw [if_neg hcond]
  | some v =>
    by_cases hcond : (st.operator.isSome && !st.should_reset_display) = true
    · left
      show (if st.operator.isSome && !st.should_reset_display
        then calculate_result st else st).display_value =
          (calculate_result st).display_value
      rw [if_pos hcond]
    · right
      show (if st.operator.isSome && !st.should_reset_display
        then calculate_result st else st).display_value = st.display_value
      rw [if_neg hcond]

theorem pct_display_cases (st : VMState) :
    (calculate_percentage st).display_value = errorDisplay ∨
    ∃ r, (calculate_percentage st).display_value = formatResult r := by
  cases hpf : parseFloat st.display_value with
  | none => left; simp [calculate_percentage, hpf]
  | some v => right; exact ⟨v / 100, by simp [calculate_percentage, hpf]⟩

theorem input_digit_display_cases (st : VMState) (c : Char) :
    (input_digit st c).display_value = [c] ∨
    (input_digit st c).display_value = ['0', c] ∨
    (input_digit st c).display_value = st.display_value ++ [c] := by
  unfold input_digit
  split
  · dsimp only
    split
    · left; rfl
    · right; left; rfl
  · dsimp only
    split
    · left; rfl
    · right; right; rfl

theorem input_decimal_display_cases (st : VMState) :
    (input_decimal st).display_value = ['0'] ∨
    (input_decimal st).display_value = ['0', '.'] ∨
    (input_decimal st).display_value = st.display_value ∨
    (input_decimal st).display_value = st.display_value ++ ['.'] := by
  unfold input_decimal
  split
  · dsimp only
    split
    · right; left; rfl
    · left; rfl
  · dsimp only
    split
    · right; right; right; rfl
    · right; right; left; rfl

theorem ndm_singleton (c : Char) : noDoubleMinus [c] := by
  unfold noDoubleMinus
  simp

theorem ndm_pair_head (c c2 : Char) (hc : c ≠ '-') : noDoubleMinus [c, c2] := by
  unfold noDoubleMinus
  simp [hc]

theorem ndm_toggle (st : VMState) (h : noDoubleMinus st.display_value) :
    noDoubleMinus (toggle_sign st).display_value := by
  unfold toggle_sign
  split
  · split
    · rename_i hne0 hhead
      rcases hd : st.display_value with _ | ⟨c, t⟩
      · rw [hd] at hhead
        simp at hhead
      · rw [hd] at hhead
        simp at hhead
        subst hhead
        show noDoubleMinus (('-' :: t).tail)
        simp only [List.tail_cons]
        apply ndm_of_head_ne
        intro c2 hc2
        rcases t with _ | ⟨c2', t2⟩
        · simp at hc2
        · simp at hc2
          subst hc2
          intro heq
          subst heq
          rw [hd] at h
          exact h rfl
    · rename_i hne0 hhead
      show noDoubleMinus ('-' :: st.display_value)
      exact ndm_minus_cons _ hhead
  · exact h

theorem ndm_step (st : VMState) (k : Key) (h : noDoubleMinus st.display_value)
    (hk : validKey k = true) : noDoubleMinus (step st k).display_value := by
  cases k with
  | digit c =>
    have hc : c ≠ '-' := (isDigit_not_special hk).2.2.2.1
    show noDoubleMinus (input_digit st c).display_value
    rcases input_digit_display_cases st c with hcase | hcase | hcase <;> rw [hcase]
    · exact ndm_singleton c
    · exact ndm_pair_head '0' c (by decide)
    · exact ndm_append _ c h hc
  | dot =>
    show noDoubleMinus (input_decimal st).display_value
    rcases input_decimal_display_cases st with hcase | hcase | hcase | hcase <;>
      rw [hcase]
    · exact ndm_singleton '0'
    · exact ndm_pair_head '0' '.' (by decide)
    · exact h
    · exact ndm_append _ '.' h (by decide)
  | op c =>
    show noDoubleMinus (applyOperatorKey st c).display_value
    rcases applyOperatorKey_display st c with hcase | hcase <;> rw [hcase]
    · exact ndm_calc st h
    · exact h
  | eq => exact ndm_calc st h
  | clear => exact ndm_singleton '0'
  | clearEntry => exact ndm_singleton '0'
  | back =>
    show noDoubleMinus (backspace st).display_value
    unfold backspace
    split
    · exact ndm_dropLast _ h
    · exact ndm_singleton '0'
  | sign => exact ndm_toggle st h
  | pct =>
    show noDoubleMinus (calculate_percentage st).display_value
    rcases pct_display_cases st with hcase | ⟨r, hcase⟩ <;> rw [hcase]
    · exact ndm_errorDisplay
    · exact ndm_formatResult r

theorem ndm_run (ks : List Key) : ∀ st : VMState,
    noDoubleMinus st.display_value → ks.all validKey = true →
    noDoubleMinus (run st ks).display_value := by
  induction ks with
  | nil => intro st h _; exact h
  | cons k ks ih =>
    intro st h hall
    simp only [List.all_cons, Bool.and_eq_true] at hall
    exact ih (step st k) (ndm_step st k h hall.1) hall.2

theorem toggle_toggle_display (st : VMState)
    (h : noDoubleMinus st.display_value)
    (hne : st.display_value ≠ ['-', '0']) :
    (toggle_sign (toggle_sign st)).display_value = st.display_value := by
  by_cases h0 : st.display_value = ['0']
  · have t1 : toggle_sign st = st := by
      unfold toggle_sign
      rw [if_neg (by simp [h0])]
    rw [t1, t1]
  · rcases hd : st.display_value with _ | ⟨c, t⟩
    · have t1 : toggle_sign st = { st with display_value := ['-'] } := by
        unfold toggle_sign
        rw [hd]
        simp
      have t2 : toggle_sign { st with display_value := ['-'] } =
          { st with display_value := [] } := by
        unfold toggle_sign
        simp
      rw [t1, t2]
    · by_cases hc : c = '-'
      · subst hc
        have t1 : toggle_sign st = { st with display_value := t } := by
          unfold toggle_sign
          rw [hd]
          simp
        have ht0 : t ≠ ['0'] := by
          intro hh
          apply hne
          rw [hd, hh]
        rcases t with _ | ⟨c2, t2⟩
        · have t2' : toggle_sign { st with display_value := ([] : List Char) } =
              { st with display_value := ['-'] } := by
            unfold toggle_sign
            simp
          rw [t1, t2']
        · have hc2 : c2 ≠ '-' := by
            rw [hd] at h
            intro hh
            subst hh
            exact h rfl
          have t2' : toggle_sign { st with display_value := c2 :: t2 } =
              { st with display_value := '-' :: c2 :: t2 } := by
            unfold toggle_sign
            simp [ht0, hc2]
          rw [t1, t2']
      · have hct : c :: t ≠ ['0'] := by
          rw [← hd]
          exact h0
        have t1 : toggle_sign st = { st with display_value := '-' :: c :: t } := by
          unfold toggle_sign
          rw [hd]
          simp [hct, hc]
        have t2 : toggle_sign { st with display_value := '-' :: c :: t } =
            { st with display_value := c :: t } := by
          unfold toggle_sign
          simp
        rw [t1, t2]

/-- C7 counterexample: the state with display `"-0"` is reachable (press
`.`, `5`, `±`, backspace, backspace) and toggling its sign twice yields
display `"0"`, not the original `"-0"`. -/
theorem claim_C7_counterexample :
    ([Key.dot, Key.digit '5', Key.sign, Key.back, Key.back].all validKey
      = true) ∧
    (run initState
      [Key.dot, Key.digit '5', Key.sign, Key.back, Key.back]).display_value =
      ['-', '0'] ∧
    (toggle_sign (toggle_sign (run initState
      [Key.dot, Key.digit '5', Key.sign, Key.back, Key.back]))).display_value =
      ['0'] ∧
    (['0'] : List Char) ≠ ['-', '0'] := by decide

/-- C7 (amended): for every reachable ViewModel state whose display is not
`"-0"`, applying `toggle_sign` twice returns the display value to what it
was before; and `toggle_sign` on the display `"0"` leaves the state
unchanged. -/
theorem claim_C7_amended_toggle_involution (st : VMState) (h : Reachable st)
    (hne : st.display_value ≠ ['-', '0']) :
    (toggle_sign (toggle_sign st)).display_value = st.display_value ∧
    (st.display_value = ['0'] → toggle_sign st = st) := by
  obtain ⟨ks, hv, hrun⟩ := h
  have hndm : noDoubleMinus st.display_value := by
    rw [← hrun]
    exact ndm_run ks initState (by unfold noDoubleMinus; decide) hv
  refine ⟨toggle_toggle_display st hndm hne, fun h0 => ?_⟩
  unfold toggle_sign
  rw [if_neg (by simp [h0])]

/-- Witness for C7 (amended) at the (reachable) initial state. -/
theorem claim_C7_amended_toggle_involution_witness :
    (toggle_sign (toggle_sign initState)).display_value =
      initState.display_value ∧
    (initState.display_value = ['0'] → toggle_sign initState = initState) :=
  claim_C7_amended_toggle_involution initState ⟨[], rfl, rfl⟩ (by decide)

end GUICalculator
